import Mathlib

/-!
Verification of the event-log → duration-record → life-table pipeline
(`events_to_durations.py`, `events_to_conversions.py`, `durations_to_survival.py`).

The life-table stage (`durations_to_survival.py`) is embedded over
`List (ℤ × Bool)`: one entry per duration record, carrying the bucketed
(integer) duration value — the script's `duration_days` column after the
ceiling on line 18 — and its `endpoint_observed` flag.  Table columns become
lists: `survivalRows` is the grouped frame with `num_obs`, `events` and
`at_risk` (lines 21–32), `survivingRows` is the frame after the
`events > 0` filter (line 36), and `censoredCol` / `survival_proba` /
`cumulative_hazard` are the columns added on lines 45–49, 55–56 and 90.
Counts are ℕ, `at_risk` and `censored` are ℤ (pandas integer arithmetic,
which can in principle go negative), and the estimator columns are ℚ
(exact arithmetic, standing in for the script's float64).
-/

namespace Gists

/-! ### Life-table stage: `durations_to_survival.py` -/

/-- A row of the grouped survival frame (`durations_to_survival.py`, lines
21–32): bucket key (`duration_days`), group size (`num_obs`, from
`grp.size()`), event count (`events`, from `grp["endpoint_observed"].sum()`,
i.e. the number of `True` flags in the group), and the at-risk count inserted
on line 32. -/
structure SurvRow where
  duration_days : ℤ
  num_obs : ℕ
  events : ℕ
  at_risk : ℤ
  deriving Repr, DecidableEq

/-- Apply a caller-supplied bucket function to every record's duration
(the script's line 18 rounds up to whole days; the spec treats the rounding
policy as a caller-supplied `bucket_fn`). -/
def bucketed {α : Type} (bucket : α → ℤ) (records : List (α × Bool)) :
    List (ℤ × Bool) :=
  records.map (fun r => (bucket r.1, r.2))

/-- The sorted distinct bucket keys: `durations.groupby("duration_days")`
groups by the distinct key values and sorts them ascending (pandas
`groupby` sorts group keys by default). -/
def bucketKeys (records : List (ℤ × Bool)) : List ℤ :=
  List.insertionSort (· ≤ ·) (records.map Prod.fst).dedup

/-- Group size for key `k`: `grp.size()`. -/
def numObsAt (records : List (ℤ × Bool)) (k : ℤ) : ℕ :=
  (records.filter (fun r => decide (r.1 = k))).length

/-- Event count for key `k`: `grp["endpoint_observed"].sum()` sums the
boolean flags, i.e. counts the records of the group whose flag is `true`. -/
def eventsAt (records : List (ℤ × Bool)) (k : ℤ) : ℕ :=
  (records.filter (fun r => decide (r.1 = k) && r.2)).length

/-- `num_subjects = len(durations)` (line 30). -/
def num_subjects (records : List (ℤ × Bool)) : ℕ := records.length

/-- `prior_count = survival["num_obs"].cumsum().shift(1, fill_value=0)`
(line 31): the entry at position `i` is the sum of `num_obs` over the first
`i` rows, i.e. over all buckets strictly before bucket `i` (0 for `i = 0`). -/
def prior_count (records : List (ℤ × Bool)) (i : ℕ) : ℕ :=
  (((bucketKeys records).take i).map (numObsAt records)).sum

/-- The grouped survival frame with the `at_risk` column
(`num_subjects - prior_count`, line 32), one row per sorted bucket key. -/
def survivalRows (records : List (ℤ × Bool)) : List SurvRow :=
  (bucketKeys records).enum.map (fun p =>
    { duration_days := p.2
      num_obs := numObsAt records p.2
      events := eventsAt records p.2
      at_risk := (num_subjects records : ℤ) - (prior_count records p.1 : ℤ) })

/-- `survival = survival.loc[survival["events"] > 0]` (line 36): keep only
the buckets with at least one event. -/
def survivingRows (records : List (ℤ × Bool)) : List SurvRow :=
  (survivalRows records).filter (fun r => decide (0 < r.events))

/-- The `censored` column (lines 45–49):
`at_risk - at_risk.shift(-1, fill_value=0) - events`, so each row subtracts
the next row's at-risk count (0 after the last row) and its own events. -/
def censoredList : List SurvRow → List ℤ
  | [] => []
  | r :: rest =>
    (r.at_risk - (match rest with | [] => 0 | r2 :: _ => r2.at_risk) -
        (r.events : ℤ)) :: censoredList rest

/-- The `censored` column of the filtered survival frame. -/
def censoredCol (records : List (ℤ × Bool)) : List ℤ :=
  censoredList (survivingRows records)

/-- `inverse_hazard = 1 - survival["events"] / survival["at_risk"]`
(line 55). -/
def inverse_hazard (r : SurvRow) : ℚ :=
  1 - (r.events : ℚ) / (r.at_risk : ℚ)

/-- Running product (pandas `cumprod`), with accumulator. -/
def cumprodAux (acc : ℚ) : List ℚ → List ℚ
  | [] => []
  | x :: xs => (acc * x) :: cumprodAux (acc * x) xs

/-- `survival["survival_proba"] = inverse_hazard.cumprod()` (line 56). -/
def survival_proba (records : List (ℤ × Bool)) : List ℚ :=
  cumprodAux 1 ((survivingRows records).map inverse_hazard)

/-- The per-row hazard increment `events / at_risk` (line 90). -/
def hazardTerm (r : SurvRow) : ℚ :=
  (r.events : ℚ) / (r.at_risk : ℚ)

/-- Running sum (pandas `cumsum`), with accumulator. -/
def cumsumAux (acc : ℚ) : List ℚ → List ℚ
  | [] => []
  | x :: xs => (acc + x) :: cumsumAux (acc + x) xs

/-- `survival["cumulative_hazard"] = (events / at_risk).cumsum()` (line 90). -/
def cumulative_hazard (records : List (ℤ × Bool)) : List ℚ :=
  cumsumAux 0 ((survivingRows records).map hazardTerm)

/-- Scenario A of the spec: durations [1,1,2,3,3,3,4] with observed flags
[T,T,T,F,T,T,T]. -/
def scenarioA : List (ℤ × Bool) :=
  [(1, true), (1, true), (2, true), (3, false), (3, true), (3, true),
   (4, true)]

/-! ### Counting helpers -/

theorem countP_or_disjoint {α : Type} (l : List α) (p q : α → Bool)
    (h : ∀ a ∈ l, ¬(p a = true ∧ q a = true)) :
    l.countP (fun a => p a || q a) = l.countP p + l.countP q := by
  induction l with
  | nil => simp
  | cons a t ih =>
    have ht : ∀ b ∈ t, ¬(p b = true ∧ q b = true) := fun b hb => h b (by simp [hb])
    have ha := h a (by simp)
    simp only [List.countP_cons, ih ht]
    cases hp : p a <;> cases hq : q a <;> simp_all <;> omega

theorem countP_add_compl {α : Type} (l : List α) (p : α → Bool) :
    l.countP p + l.countP (fun a => !(p a)) = l.length := by
  induction l with
  | nil => simp
  | cons a t ih =>
    simp only [List.countP_cons, List.length_cons]
    cases hp : p a <;> simp <;> omega

/-! ### Properties of the sorted bucket keys -/

theorem bucketKeys_nodup (records : List (ℤ × Bool)) :
    (bucketKeys records).Nodup :=
  ((List.perm_insertionSort _ _).nodup_iff).mpr (List.nodup_dedup _)

theorem mem_bucketKeys {records : List (ℤ × Bool)} {k : ℤ} :
    k ∈ bucketKeys records ↔ ∃ r ∈ records, r.1 = k := by
  rw [bucketKeys, (List.perm_insertionSort _ _).mem_iff, List.mem_dedup,
    List.mem_map]

theorem bucketKeys_sorted (records : List (ℤ × Bool)) :
    (bucketKeys records).Pairwise (· < ·) := by
  have hle : (bucketKeys records).Pairwise (· ≤ ·) :=
    List.sorted_insertionSort (· ≤ ·) _
  have hne : (bucketKeys records).Pairwise (· ≠ ·) := bucketKeys_nodup records
  exact (hle.and hne).imp (fun h => lt_of_le_of_ne h.1 h.2)

/-- The sum of group sizes over a duplicate-free list of keys counts the
records whose key lies in the list. -/
theorem sum_map_numObs (records : List (ℤ × Bool)) :
    ∀ (l : List ℤ), l.Nodup →
      (l.map (numObsAt records)).sum =
        records.countP (fun r => decide (r.1 ∈ l)) := by
  intro l
  induction l with
  | nil => simp [List.countP_eq_length_filter]
  | cons k t ih =>
    intro hnd
    have hk : k ∉ t := (List.nodup_cons.mp hnd).1
    have ht : t.Nodup := (List.nodup_cons.mp hnd).2
    have hdisj : ∀ r ∈ records,
        ¬((decide (r.1 = k)) = true ∧ (decide (r.1 ∈ t)) = true) := by
      intro r _ ⟨h1, h2⟩
      exact hk (by simpa [of_decide_eq_true h1] using of_decide_eq_true h2)
    have hsplit := countP_or_disjoint records (fun r => decide (r.1 = k))
      (fun r => decide (r.1 ∈ t)) hdisj
    have hcongr : records.countP (fun r => decide (r.1 ∈ k :: t)) =
        records.countP (fun r => decide (r.1 = k) || decide (r.1 ∈ t)) := by
      apply List.countP_congr
      intro r _
      simp [List.mem_cons]
    have hnum : numObsAt records k = records.countP (fun r => decide (r.1 = k)) :=
      (List.countP_eq_length_filter _ _).symm
    simp only [List.map_cons, List.sum_cons, hcongr, hsplit, ih ht, hnum]

/-- In a strictly sorted list containing `x`, membership in the length-`i`
prefix is equivalent to being below the `i`-th element. -/
theorem mem_take_iff_lt {ks : List ℤ} (hs : ks.Pairwise (· < ·)) {i : ℕ}
    (h : i < ks.length) {x : ℤ} (hx : x ∈ ks) :
    x ∈ ks.take i ↔ x < ks[i] := by
  have hpw := List.pairwise_iff_getElem.mp hs
  constructor
  · intro hmem
    obtain ⟨j, hj, hjx⟩ := List.mem_iff_getElem.mp hmem
    have hj' : j < i := by
      have := hj
      rw [List.length_take] at this
      omega
    have hjlen : j < ks.length := by omega
    have : (ks.take i)[j] = ks[j] := List.getElem_take ks
    rw [this] at hjx
    rw [← hjx]
    exact hpw j i hjlen h hj'
  · intro hlt
    obtain ⟨j, hj, hjx⟩ := List.mem_iff_getElem.mp hx
    have hji : j < i := by
      by_contra hc
      push_neg at hc
      rcases Nat.lt_or_ge i j with hij | hij
      · have : ks[i] < ks[j] := hpw i j h hj hij
        omega
      · have hij' : i = j := by omega
        subst hij'
        omega
    have hjtake : j < (ks.take i).length := by
      rw [List.length_take]
      omega
    have : (ks.take i)[j] = ks[j] := List.getElem_take ks
    exact List.mem_iff_getElem.mpr ⟨j, hjtake, this.trans hjx⟩

/-! ### The at-risk bookkeeping -/

/-- The shifted cumulative sum of `num_obs` counts the records whose bucket
key is strictly below the `i`-th sorted key. -/
theorem prior_count_eq_countLT (records : List (ℤ × Bool)) (i : ℕ)
    (h : i < (bucketKeys records).length) :
    prior_count records i =
      records.countP (fun r => decide (r.1 < (bucketKeys records)[i])) := by
  have hnd : ((bucketKeys records).take i).Nodup :=
    (List.take_sublist i _).nodup (bucketKeys_nodup records)
  rw [prior_count, sum_map_numObs records _ hnd]
  apply List.countP_congr
  intro r hr
  have hrk : r.1 ∈ bucketKeys records := mem_bucketKeys.mpr ⟨r, hr, rfl⟩
  simp only [decide_eq_true_eq]
  exact mem_take_iff_lt (bucketKeys_sorted records) h hrk

/-- `at_risk = num_subjects - prior_count` counts the records whose bucket
key is at least the `i`-th sorted key. -/
theorem at_risk_eq_countGE (records : List (ℤ × Bool)) (i : ℕ)
    (h : i < (bucketKeys records).length) :
    (num_subjects records : ℤ) - (prior_count records i : ℤ) =
      (records.countP (fun r => decide ((bucketKeys records)[i] ≤ r.1)) : ℤ) := by
  have hsplit := countP_add_compl records
    (fun r => decide (r.1 < (bucketKeys records)[i]))
  have hcongr : records.countP
      (fun r => !(decide (r.1 < (bucketKeys records)[i]))) =
      records.countP (fun r => decide ((bucketKeys records)[i] ≤ r.1)) := by
    apply List.countP_congr
    intro r _
    simp [not_lt]
  rw [hcongr] at hsplit
  rw [prior_count_eq_countLT records i h, num_subjects]
  omega

theorem length_survivalRows (records : List (ℤ × Bool)) :
    (survivalRows records).length = (bucketKeys records).length := by
  rw [survivalRows, List.length_map, List.enum_length]

theorem getElem_survivalRows (records : List (ℤ × Bool)) (i : ℕ)
    (h : i < (survivalRows records).length)
    (hk : i < (bucketKeys records).length) :
    (survivalRows records)[i] =
      { duration_days := (bucketKeys records)[i]
        num_obs := numObsAt records ((bucketKeys records)[i])
        events := eventsAt records ((bucketKeys records)[i])
        at_risk := (num_subjects records : ℤ) - (prior_count records i : ℤ) } := by
  have he : i < (bucketKeys records).enum.length := by
    rw [List.enum_length]; exact hk
  simp only [survivalRows, List.getElem_map, List.getElem_enum]

/-- Every row of the grouped frame arises from a position in the key list. -/
theorem mem_survivalRows {records : List (ℤ × Bool)} {row : SurvRow}
    (hrow : row ∈ survivalRows records) :
    ∃ i, ∃ h : i < (bucketKeys records).length,
      row.duration_days = (bucketKeys records)[i] ∧
      row.num_obs = numObsAt records ((bucketKeys records)[i]) ∧
      row.events = eventsAt records ((bucketKeys records)[i]) ∧
      row.at_risk = (num_subjects records : ℤ) - (prior_count records i : ℤ) := by
  obtain ⟨i, hi, hrow'⟩ := List.mem_iff_getElem.mp hrow
  have hk : i < (bucketKeys records).length := by
    rw [← length_survivalRows records]; exact hi
  refine ⟨i, hk, ?_⟩
  rw [← hrow', getElem_survivalRows records i hi hk]
  exact ⟨rfl, rfl, rfl, rfl⟩

/-! ### Per-row invariants -/

theorem eventsAt_le_numObsAt (records : List (ℤ × Bool)) (k : ℤ) :
    eventsAt records k ≤ numObsAt records k := by
  rw [eventsAt, numObsAt, ← List.countP_eq_length_filter,
    ← List.countP_eq_length_filter]
  exact List.countP_mono_left (by intro r _ h; simp_all)

theorem numObsAt_le_countGE (records : List (ℤ × Bool)) (k : ℤ) :
    numObsAt records k ≤ records.countP (fun r => decide (k ≤ r.1)) := by
  rw [numObsAt, ← List.countP_eq_length_filter]
  apply List.countP_mono_left
  intro r _ h
  simp only [decide_eq_true_eq] at *
  omega

theorem numObsAt_pos {records : List (ℤ × Bool)} {k : ℤ}
    (hk : k ∈ bucketKeys records) : 0 < numObsAt records k := by
  obtain ⟨r, hr, hrk⟩ := mem_bucketKeys.mp hk
  rw [numObsAt, ← List.countP_eq_length_filter]
  exact List.countP_pos_iff.mpr ⟨r, hr, by simp [hrk]⟩

/-- The at-risk count of any grouped row equals the number of records whose
bucket key is at least that row's key. -/
theorem row_at_risk_count {records : List (ℤ × Bool)} {row : SurvRow}
    (hrow : row ∈ survivalRows records) :
    row.at_risk =
      (records.countP (fun r => decide (row.duration_days ≤ r.1)) : ℤ) := by
  obtain ⟨i, hk, hkey, _, _, har⟩ := mem_survivalRows hrow
  rw [har, hkey, at_risk_eq_countGE records i hk]

theorem row_events_le_at_risk {records : List (ℤ × Bool)} {row : SurvRow}
    (hrow : row ∈ survivalRows records) :
    (row.events : ℤ) ≤ row.at_risk := by
  obtain ⟨i, hk, hkey, _, hev, _⟩ := mem_survivalRows hrow
  rw [row_at_risk_count hrow, hev, hkey]
  have h1 := eventsAt_le_numObsAt records ((bucketKeys records)[i])
  have h2 := numObsAt_le_countGE records ((bucketKeys records)[i])
  omega

theorem row_num_obs_le_at_risk {records : List (ℤ × Bool)} {row : SurvRow}
    (hrow : row ∈ survivalRows records) :
    (row.num_obs : ℤ) ≤ row.at_risk := by
  obtain ⟨i, hk, hkey, hno, _, _⟩ := mem_survivalRows hrow
  rw [row_at_risk_count hrow, hno, hkey]
  have h2 := numObsAt_le_countGE records ((bucketKeys records)[i])
  omega

/-- Surviving rows are grouped rows with at least one event. -/
theorem mem_survivingRows {records : List (ℤ × Bool)} {row : SurvRow}
    (hrow : row ∈ survivingRows records) :
    row ∈ survivalRows records ∧ 0 < row.events := by
  have := List.mem_filter.mp hrow
  exact ⟨this.1, of_decide_eq_true this.2⟩

/-- A surviving bucket has a strictly positive at-risk count. -/
theorem surviving_at_risk_pos {records : List (ℤ × Bool)} {row : SurvRow}
    (hrow : row ∈ survivingRows records) : 0 < row.at_risk := by
  obtain ⟨hmem, hev⟩ := mem_survivingRows hrow
  have := row_events_le_at_risk hmem
  omega

/-! ### Ordering of the grouped frame -/

theorem survivalRows_key_lt (records : List (ℤ × Bool)) :
    (survivalRows records).Pairwise
      (fun a b => a.duration_days < b.duration_days) := by
  rw [List.pairwise_iff_getElem]
  intro i j hi hj hij
  have hki : i < (bucketKeys records).length := by
    rw [← length_survivalRows records]; exact hi
  have hkj : j < (bucketKeys records).length := by
    rw [← length_survivalRows records]; exact hj
  rw [getElem_survivalRows records i hi hki, getElem_survivalRows records j hj hkj]
  exact List.pairwise_iff_getElem.mp (bucketKeys_sorted records) i j hki hkj hij

theorem prior_count_mono (records : List (ℤ × Bool)) {i j : ℕ} (hij : i ≤ j) :
    prior_count records i ≤ prior_count records j := by
  rw [prior_count, prior_count]
  have : (bucketKeys records).take i =
      ((bucketKeys records).take j).take i := by
    rw [List.take_take, Nat.min_eq_left hij]
  rw [this]
  set l := (bucketKeys records).take j
  calc ((l.take i).map (numObsAt records)).sum
      ≤ ((l.take i).map (numObsAt records)).sum +
        ((l.drop i).map (numObsAt records)).sum := Nat.le_add_right _ _
    _ = (l.map (numObsAt records)).sum := by
        rw [← List.sum_append, ← List.map_append, List.take_append_drop]

theorem survivalRows_at_risk_antitone (records : List (ℤ × Bool)) :
    (survivalRows records).Pairwise (fun a b => b.at_risk ≤ a.at_risk) := by
  rw [List.pairwise_iff_getElem]
  intro i j hi hj hij
  have hki : i < (bucketKeys records).length := by
    rw [← length_survivalRows records]; exact hi
  have hkj : j < (bucketKeys records).length := by
    rw [← length_survivalRows records]; exact hj
  rw [getElem_survivalRows records i hi hki, getElem_survivalRows records j hj hkj]
  have := prior_count_mono records (Nat.le_of_lt hij)
  simp only
  omega

theorem survivingRows_sublist (records : List (ℤ × Bool)) :
    (survivingRows records).Sublist (survivalRows records) :=
  List.filter_sublist _

theorem survivingRows_key_lt (records : List (ℤ × Bool)) :
    (survivingRows records).Pairwise
      (fun a b => a.duration_days < b.duration_days) :=
  List.Pairwise.sublist (survivingRows_sublist records) (survivalRows_key_lt records)

theorem survivingRows_at_risk_antitone (records : List (ℤ × Bool)) :
    (survivingRows records).Pairwise (fun a b => b.at_risk ≤ a.at_risk) :=
  List.Pairwise.sublist (survivingRows_sublist records) (survivalRows_at_risk_antitone records)

end Gists

namespace Gists

/-! ### Running products and sums -/

theorem length_cumprodAux (acc : ℚ) (xs : List ℚ) :
    (cumprodAux acc xs).length = xs.length := by
  induction xs generalizing acc with
  | nil => rfl
  | cons x t ih => simp [cumprodAux, ih]

theorem getElem_cumprodAux (xs : List ℚ) :
    ∀ (acc : ℚ) (i : ℕ) (h : i < (cumprodAux acc xs).length),
      (cumprodAux acc xs)[i] = acc * (xs.take (i + 1)).prod := by
  induction xs with
  | nil => intro acc i h; simp [cumprodAux] at h
  | cons x t ih =>
    intro acc i h
    cases i with
    | zero => simp [cumprodAux]
    | succ j =>
      have hj : j < (cumprodAux (acc * x) t).length := by
        simp only [cumprodAux, List.length_cons] at h
        omega
      simp only [cumprodAux, List.getElem_cons_succ, ih (acc * x) j hj,
        List.take_succ_cons, List.prod_cons]
      ring

theorem length_cumsumAux (acc : ℚ) (xs : List ℚ) :
    (cumsumAux acc xs).length = xs.length := by
  induction xs generalizing acc with
  | nil => rfl
  | cons x t ih => simp [cumsumAux, ih]

theorem getElem_cumsumAux (xs : List ℚ) :
    ∀ (acc : ℚ) (i : ℕ) (h : i < (cumsumAux acc xs).length),
      (cumsumAux acc xs)[i] = acc + (xs.take (i + 1)).sum := by
  induction xs with
  | nil => intro acc i h; simp [cumsumAux] at h
  | cons x t ih =>
    intro acc i h
    cases i with
    | zero => simp [cumsumAux]
    | succ j =>
      have hj : j < (cumsumAux (acc + x) t).length := by
        simp only [cumsumAux, List.length_cons] at h
        omega
      simp only [cumsumAux, List.getElem_cons_succ, ih (acc + x) j hj,
        List.take_succ_cons, List.sum_cons]
      ring

/-! ### The censored column -/

theorem length_censoredList (l : List SurvRow) :
    (censoredList l).length = l.length := by
  induction l with
  | nil => rfl
  | cons r t ih => simp [censoredList, ih]

theorem getElem_censoredList (l : List SurvRow) :
    ∀ (i : ℕ) (h : i < (censoredList l).length) (hl : i < l.length),
      (censoredList l)[i] =
        l[i].at_risk - ((l[i + 1]?).map SurvRow.at_risk).getD 0 -
          (l[i].events : ℤ) := by
  induction l with
  | nil => intro i h; simp [censoredList] at h
  | cons r t ih =>
    intro i h hl
    cases i with
    | zero =>
      cases t with
      | nil => simp [censoredList]
      | cons r2 t2 => simp [censoredList]
    | succ j =>
      have hj : j < (censoredList t).length := by
        simp only [censoredList, List.length_cons] at h
        omega
      have hjl : j < t.length := by
        rw [← length_censoredList]; exact hj
      simp only [censoredList, List.getElem_cons_succ, ih j hj hjl,
        List.getElem?_cons_succ]

end Gists

namespace Gists

/-! ### Bounds on the estimator terms -/

theorem hazardTerm_nonneg {records : List (ℤ × Bool)} {row : SurvRow}
    (hrow : row ∈ survivingRows records) : 0 ≤ hazardTerm row := by
  have hpos : 0 < row.at_risk := surviving_at_risk_pos hrow
  have : (0 : ℚ) < (row.at_risk : ℚ) := by exact_mod_cast hpos
  exact div_nonneg (Nat.cast_nonneg _) (le_of_lt this)

theorem inverse_hazard_mem_unit {records : List (ℤ × Bool)} {row : SurvRow}
    (hrow : row ∈ survivingRows records) :
    0 ≤ inverse_hazard row ∧ inverse_hazard row ≤ 1 := by
  have hpos : 0 < row.at_risk := surviving_at_risk_pos hrow
  have hposq : (0 : ℚ) < (row.at_risk : ℚ) := by exact_mod_cast hpos
  have hle : (row.events : ℤ) ≤ row.at_risk :=
    row_events_le_at_risk (mem_survivingRows hrow).1
  constructor
  · rw [inverse_hazard, sub_nonneg, div_le_one hposq]
    exact_mod_cast hle
  · rw [inverse_hazard]
    have : 0 ≤ (row.events : ℚ) / (row.at_risk : ℚ) :=
      div_nonneg (Nat.cast_nonneg _) (le_of_lt hposq)
    linarith

theorem prod_mem_unit {xs : List ℚ} (h : ∀ x ∈ xs, 0 ≤ x ∧ x ≤ 1) :
    0 ≤ xs.prod ∧ xs.prod ≤ 1 := by
  induction xs with
  | nil => norm_num
  | cons x t ih =>
    have hx := h x (by simp)
    have ht := ih (fun y hy => h y (by simp [hy]))
    rw [List.prod_cons]
    constructor
    · exact mul_nonneg hx.1 ht.1
    · exact mul_le_one₀ hx.2 ht.1 ht.2

theorem prod_take_antitone {xs : List ℚ} (h : ∀ x ∈ xs, 0 ≤ x ∧ x ≤ 1)
    {i j : ℕ} (hij : i ≤ j) :
    (xs.take j).prod ≤ (xs.take i).prod := by
  have hsplit : xs.take i = (xs.take j).take i := by
    rw [List.take_take, Nat.min_eq_left hij]
  rw [hsplit, ← List.prod_take_mul_prod_drop (xs.take j) i]
  have htake : ∀ x ∈ (xs.take j).take i, 0 ≤ x ∧ x ≤ 1 :=
    fun x hx => h x (List.mem_of_mem_take (List.mem_of_mem_take hx))
  have hdrop : ∀ x ∈ (xs.take j).drop i, 0 ≤ x ∧ x ≤ 1 := by
    intro x hx
    exact h x (List.mem_of_mem_take ((List.drop_sublist _ _).mem hx))
  have h1 := prod_mem_unit htake
  have h2 := prod_mem_unit hdrop
  exact mul_le_of_le_one_right h1.1 h2.2

theorem sum_take_monotone {xs : List ℚ} (h : ∀ x ∈ xs, 0 ≤ x)
    {i j : ℕ} (hij : i ≤ j) :
    (xs.take i).sum ≤ (xs.take j).sum := by
  have hsplit : xs.take i = (xs.take j).take i := by
    rw [List.take_take, Nat.min_eq_left hij]
  rw [hsplit, ← List.sum_take_add_sum_drop (xs.take j) i]
  have hdrop : 0 ≤ ((xs.take j).drop i).sum := by
    apply List.sum_nonneg
    intro x hx
    exact h x (List.mem_of_mem_take ((List.drop_sublist _ _).mem hx))
  linarith

/-! ### The censoring inference is non-negative -/

/-- Between a bucket and any later bucket, the at-risk count drops by at
least the earlier bucket's event count. -/
theorem at_risk_gap {records : List (ℤ × Bool)} {a b : SurvRow}
    (ha : a ∈ survivalRows records) (hb : b ∈ survivalRows records)
    (hk : a.duration_days < b.duration_days) :
    b.at_risk + (a.events : ℤ) ≤ a.at_risk := by
  obtain ⟨i, hik, hkey, _, hev, _⟩ := mem_survivalRows ha
  have hevents : a.events =
      records.countP (fun r => decide (r.1 = a.duration_days) && r.2) := by
    rw [hev, ← hkey, eventsAt, List.countP_eq_length_filter]
  rw [row_at_risk_count ha, row_at_risk_count hb, hevents]
  have hdisj : ∀ r ∈ records,
      ¬((decide (b.duration_days ≤ r.1)) = true ∧
        ((decide (r.1 = a.duration_days) && r.2) = true)) := by
    intro r _ ⟨h1, h2⟩
    have h1' := of_decide_eq_true h1
    have h2' : r.1 = a.duration_days := by
      have := (Bool.and_eq_true _ _).mp h2
      exact of_decide_eq_true this.1
    omega
  have hsum : records.countP (fun r =>
      (decide (b.duration_days ≤ r.1)) ||
        ((decide (r.1 = a.duration_days)) && r.2)) =
      records.countP (fun r => decide (b.duration_days ≤ r.1)) +
        records.countP (fun r => decide (r.1 = a.duration_days) && r.2) :=
    countP_or_disjoint records
      (fun r => decide (b.duration_days ≤ r.1))
      (fun r => decide (r.1 = a.duration_days) && r.2) hdisj
  have hmono : records.countP (fun r =>
      (decide (b.duration_days ≤ r.1)) ||
        ((decide (r.1 = a.duration_days)) && r.2)) ≤
      records.countP (fun r => decide (a.duration_days ≤ r.1)) := by
    apply List.countP_mono_left
    intro r _ h
    rcases (Bool.or_eq_true _ _).mp h with h1 | h2
    · have := of_decide_eq_true h1
      simp only [decide_eq_true_eq]
      omega
    · have : r.1 = a.duration_days := by
        have := (Bool.and_eq_true _ _).mp h2
        exact of_decide_eq_true this.1
      simp only [decide_eq_true_eq]
      omega
  omega

theorem censoredList_nonneg_aux (records : List (ℤ × Bool)) :
    ∀ (l : List SurvRow), (∀ r ∈ l, r ∈ survivalRows records) →
      l.Pairwise (fun a b => a.duration_days < b.duration_days) →
      ∀ c ∈ censoredList l, 0 ≤ c := by
  intro l
  induction l with
  | nil => simp [censoredList]
  | cons r t ih =>
    intro hmem hpw c hc
    have hr : r ∈ survivalRows records := hmem r (by simp)
    have hmemt : ∀ x ∈ t, x ∈ survivalRows records :=
      fun x hx => hmem x (by simp [hx])
    have hpwt : t.Pairwise (fun a b => a.duration_days < b.duration_days) :=
      hpw.of_cons
    cases t with
    | nil =>
      simp only [censoredList, List.mem_singleton, List.not_mem_nil] at hc
      have := row_events_le_at_risk hr
      omega
    | cons r2 t2 =>
      simp only [censoredList, List.mem_cons] at hc
      rcases hc with hc | hc
      · have hr2 : r2 ∈ survivalRows records := hmemt r2 (by simp)
        have hk : r.duration_days < r2.duration_days :=
          List.rel_of_pairwise_cons hpw (by simp)
        have := at_risk_gap hr hr2 hk
        omega
      · exact ih hmemt hpwt c (by simpa [censoredList] using hc)

end Gists

namespace Gists

/-! ### Scenario A, evaluated -/

theorem scenarioA_survivalRows :
    survivalRows (bucketed (id : ℤ → ℤ) scenarioA) =
      [⟨1, 2, 2, 7⟩, ⟨2, 1, 1, 5⟩, ⟨3, 3, 2, 4⟩, ⟨4, 1, 1, 1⟩] := by decide

theorem scenarioA_survivingRows :
    survivingRows (bucketed (id : ℤ → ℤ) scenarioA) =
      [⟨1, 2, 2, 7⟩, ⟨2, 1, 1, 5⟩, ⟨3, 3, 2, 4⟩, ⟨4, 1, 1, 1⟩] := by decide

theorem scenarioA_censoredCol :
    censoredCol (bucketed (id : ℤ → ℤ) scenarioA) = [0, 0, 1, 0] := by decide

theorem scenarioA_survival_proba :
    survival_proba (bucketed (id : ℤ → ℤ) scenarioA) =
      [5/7, 4/7, 2/7, 0] := by
  rw [survival_proba, scenarioA_survivingRows]
  norm_num [cumprodAux, inverse_hazard]

end Gists

namespace Gists

/-! ### Claim theorems for the life-table stage -/

/-- C1: for every non-empty input of duration records and every bucket
function, the survival estimate of the `i`-th surviving bucket is the
running product, over surviving buckets `j ≤ i` in ascending bucket-key
order, of `1 - events[j]/at_risk[j]`, and `at_risk > 0` holds at every
surviving bucket, so no division by zero occurs. -/
theorem C1_km_survival_running_product {α : Type} (bucket : α → ℤ)
    (records : List (α × Bool)) (hne : records ≠ []) :
    (∀ (i : ℕ) (h : i < (survival_proba (bucketed bucket records)).length),
        (survival_proba (bucketed bucket records))[i] =
          (((survivingRows (bucketed bucket records)).take (i + 1)).map
              inverse_hazard).prod) ∧
      ∀ row ∈ survivingRows (bucketed bucket records), 0 < row.at_risk := by
  refine ⟨?_, fun row hrow => surviving_at_risk_pos hrow⟩
  intro i h
  have h' : i < (cumprodAux 1
      ((survivingRows (bucketed bucket records)).map inverse_hazard)).length := h
  show (cumprodAux 1
      ((survivingRows (bucketed bucket records)).map inverse_hazard))[i] = _
  rw [getElem_cumprodAux _ _ i h', one_mul, List.map_take]

/-- Witness for C1, at Scenario A with the identity bucket function. -/
theorem C1_km_survival_running_product_witness :
    scenarioA ≠ [] ∧
      ((∀ (i : ℕ)
          (h : i < (survival_proba (bucketed (id : ℤ → ℤ) scenarioA)).length),
          (survival_proba (bucketed (id : ℤ → ℤ) scenarioA))[i] =
            (((survivingRows (bucketed (id : ℤ → ℤ) scenarioA)).take
                (i + 1)).map inverse_hazard).prod) ∧
        ∀ row ∈ survivingRows (bucketed (id : ℤ → ℤ) scenarioA),
          0 < row.at_risk) :=
  ⟨by decide, C1_km_survival_running_product id scenarioA (by decide)⟩

/-- C2: the at-risk value computed by the cumulative-sum implementation
(`num_subjects - prior_count`) equals, at every bucket of the grouped
frame, the number of records whose bucketed duration is at least that
bucket's key. -/
theorem C2_at_risk_equals_direct_count {α : Type} (bucket : α → ℤ)
    (records : List (α × Bool)) (row : SurvRow)
    (hrow : row ∈ survivalRows (bucketed bucket records)) :
    row.at_risk =
      (records.countP (fun r => decide (row.duration_days ≤ bucket r.1)) : ℤ) := by
  rw [row_at_risk_count hrow]
  congr 1
  rw [bucketed, List.countP_map]
  rfl

/-- Witness for C2 at a concrete two-record input: the bucket with key 3
(one observation, zero events) has `at_risk = 2`, the number of records
with duration ≥ 3. -/
theorem C2_at_risk_equals_direct_count_witness :
    (⟨3, 1, 0, 2⟩ : SurvRow) ∈
        survivalRows (bucketed (id : ℤ → ℤ) [(3, false), (5, true)]) ∧
      (⟨3, 1, 0, 2⟩ : SurvRow).at_risk =
        (([((3 : ℤ), false), (5, true)]).countP
            (fun r => decide ((3 : ℤ) ≤ id r.1)) : ℤ) :=
  ⟨by decide, C2_at_risk_equals_direct_count id [(3, false), (5, true)]
    ⟨3, 1, 0, 2⟩ (by decide)⟩

/-- C3: on the surviving, ascending-sorted buckets the censored count of
row `i` is `at_risk[i] - at_risk[i+1] - events[i]`, with the next surviving
row's at-risk count taken as 0 at the last row. -/
theorem C3_censored_backed_out {α : Type} (bucket : α → ℤ)
    (records : List (α × Bool)) (hne : records ≠ []) (i : ℕ)
    (h : i < (censoredCol (bucketed bucket records)).length)
    (hl : i < (survivingRows (bucketed bucket records)).length) :
    (censoredCol (bucketed bucket records))[i] =
      (survivingRows (bucketed bucket records))[i].at_risk -
        (((survivingRows (bucketed bucket records))[i + 1]?).map
            SurvRow.at_risk).getD 0 -
        ((survivingRows (bucketed bucket records))[i].events : ℤ) :=
  getElem_censoredList _ i h hl

/-- Witness for C3 at Scenario A, row 2 (bucket 3): censored = 4 - 1 - 2. -/
theorem C3_censored_backed_out_witness :
    scenarioA ≠ [] ∧
      2 < (censoredCol (bucketed (id : ℤ → ℤ) scenarioA)).length ∧
      2 < (survivingRows (bucketed (id : ℤ → ℤ) scenarioA)).length ∧
      (censoredCol (bucketed (id : ℤ → ℤ) scenarioA)).get ⟨2, by decide⟩ =
        ((survivingRows (bucketed (id : ℤ → ℤ) scenarioA)).get
            ⟨2, by decide⟩).at_risk -
          (((survivingRows (bucketed (id : ℤ → ℤ) scenarioA))[3]?).map
              SurvRow.at_risk).getD 0 -
          (((survivingRows (bucketed (id : ℤ → ℤ) scenarioA)).get
              ⟨2, by decide⟩).events : ℤ) :=
  ⟨by decide, by decide, by decide,
    C3_censored_backed_out id scenarioA (by decide) 2 (by decide) (by decide)⟩

end Gists

namespace Gists

/-- C4: the cumulative hazard of the `i`-th surviving bucket is the running
sum, over surviving buckets `j ≤ i` in the same ascending bucket-key order
as the survival estimate, of `events[j]/at_risk[j]`; consequently the
column is non-decreasing and non-negative. -/
theorem C4_na_cumulative_hazard {α : Type} (bucket : α → ℤ)
    (records : List (α × Bool)) (hne : records ≠ []) :
    (∀ (i : ℕ) (h : i < (cumulative_hazard (bucketed bucket records)).length),
        (cumulative_hazard (bucketed bucket records))[i] =
          (((survivingRows (bucketed bucket records)).take (i + 1)).map
              hazardTerm).sum) ∧
      (cumulative_hazard (bucketed bucket records)).Pairwise (· ≤ ·) ∧
      ∀ x ∈ cumulative_hazard (bucketed bucket records), 0 ≤ x := by
  have hterm : ∀ x ∈ (survivingRows (bucketed bucket records)).map hazardTerm,
      0 ≤ x := by
    intro x hx
    obtain ⟨row, hrow, hfx⟩ := List.mem_map.mp hx
    rw [← hfx]
    exact hazardTerm_nonneg hrow
  have hget : ∀ (i : ℕ)
      (h : i < (cumulative_hazard (bucketed bucket records)).length),
      (cumulative_hazard (bucketed bucket records))[i] =
        ((((survivingRows (bucketed bucket records)).map hazardTerm).take
            (i + 1))).sum := by
    intro i h
    have h' : i < (cumsumAux 0
        ((survivingRows (bucketed bucket records)).map hazardTerm)).length := h
    show (cumsumAux 0
        ((survivingRows (bucketed bucket records)).map hazardTerm))[i] = _
    rw [getElem_cumsumAux _ _ i h', zero_add]
  refine ⟨?_, ?_, ?_⟩
  · intro i h
    rw [hget i h, List.map_take]
  · rw [List.pairwise_iff_getElem]
    intro i j hi hj hij
    rw [hget i hi, hget j hj]
    exact sum_take_monotone hterm (by omega)
  · intro x hx
    obtain ⟨i, hi, hix⟩ := List.mem_iff_getElem.mp hx
    rw [← hix, hget i hi]
    apply List.sum_nonneg
    intro y hy
    exact hterm y (List.mem_of_mem_take hy)

/-- Witness for C4, at Scenario A with the identity bucket function. -/
theorem C4_na_cumulative_hazard_witness :
    scenarioA ≠ [] ∧
      ((∀ (i : ℕ)
          (h : i < (cumulative_hazard (bucketed (id : ℤ → ℤ) scenarioA)).length),
          (cumulative_hazard (bucketed (id : ℤ → ℤ) scenarioA))[i] =
            (((survivingRows (bucketed (id : ℤ → ℤ) scenarioA)).take
                (i + 1)).map hazardTerm).sum) ∧
        (cumulative_hazard (bucketed (id : ℤ → ℤ) scenarioA)).Pairwise (· ≤ ·) ∧
        ∀ x ∈ cumulative_hazard (bucketed (id : ℤ → ℤ) scenarioA), 0 ≤ x) :=
  ⟨by decide, C4_na_cumulative_hazard id scenarioA (by decide)⟩

/-- C5: Scenario A — durations [1,1,2,3,3,3,4], observed [T,T,T,F,T,T,T],
identity bucket function — yields buckets 1,2,3,4 with
(num_obs, events, at_risk) = (2,2,7), (1,1,5), (3,2,4), (1,1,1), the
censored column [0,0,1,0] (so 1 at bucket 3), and survival probabilities
[5/7, 4/7, 2/7, 0], whose last entry equals
(1-2/7)(1-1/5)(1-2/4)(1-1/1) = 0. -/
theorem C5_scenarioA_table :
    survivalRows (bucketed (id : ℤ → ℤ) scenarioA) =
        [⟨1, 2, 2, 7⟩, ⟨2, 1, 1, 5⟩, ⟨3, 3, 2, 4⟩, ⟨4, 1, 1, 1⟩] ∧
      censoredCol (bucketed (id : ℤ → ℤ) scenarioA) = [0, 0, 1, 0] ∧
      survival_proba (bucketed (id : ℤ → ℤ) scenarioA) =
        [5/7, 4/7, 2/7, 0] ∧
      (1 - 2/7) * (1 - 1/5) * (1 - 2/4) * (1 - 1/1) = (0 : ℚ) :=
  ⟨scenarioA_survivalRows, scenarioA_censoredCol, scenarioA_survival_proba,
    by norm_num⟩

/-- C6 as stated is false: at Scenario A the survival probability of the
last bucket is 0, so the column is not bounded in the half-open interval
(0,1]. -/
theorem C6_counterexample_proba_not_positive :
    ¬ ∀ p ∈ survival_proba (bucketed (id : ℤ → ℤ) scenarioA), 0 < p := by
  intro hall
  have h0 : (0 : ℚ) ∈ survival_proba (bucketed (id : ℤ → ℤ) scenarioA) := by
    rw [scenarioA_survival_proba]
    simp
  exact absurd (hall 0 h0) (by norm_num)

/-- C6 (amended): in the output life table, iterated in ascending bucket
order, the at-risk column is non-increasing and the survival-probability
column is non-increasing and bounded in the closed interval [0,1]
(it can reach 0, when the last surviving bucket has events = at_risk). -/
theorem C6_at_risk_and_proba_monotone {α : Type} (bucket : α → ℤ)
    (records : List (α × Bool)) (hne : records ≠ []) :
    ((survivingRows (bucketed bucket records)).map SurvRow.at_risk).Pairwise
        (fun a b => b ≤ a) ∧
      (survival_proba (bucketed bucket records)).Pairwise (fun a b => b ≤ a) ∧
      ∀ p ∈ survival_proba (bucketed bucket records), 0 ≤ p ∧ p ≤ 1 := by
  have hfac : ∀ x ∈ (survivingRows (bucketed bucket records)).map
      inverse_hazard, 0 ≤ x ∧ x ≤ 1 := by
    intro x hx
    obtain ⟨row, hrow, hfx⟩ := List.mem_map.mp hx
    rw [← hfx]
    exact inverse_hazard_mem_unit hrow
  have hget : ∀ (i : ℕ)
      (h : i < (survival_proba (bucketed bucket records)).length),
      (survival_proba (bucketed bucket records))[i] =
        ((((survivingRows (bucketed bucket records)).map inverse_hazard).take
            (i + 1))).prod := by
    intro i h
    have h' : i < (cumprodAux 1
        ((survivingRows (bucketed bucket records)).map inverse_hazard)).length := h
    show (cumprodAux 1
        ((survivingRows (bucketed bucket records)).map inverse_hazard))[i] = _
    rw [getElem_cumprodAux _ _ i h', one_mul]
  refine ⟨List.pairwise_map.mpr (survivingRows_at_risk_antitone _), ?_, ?_⟩
  · rw [List.pairwise_iff_getElem]
    intro i j hi hj hij
    rw [hget i hi, hget j hj]
    exact prod_take_antitone hfac (by omega)
  · intro p hp
    obtain ⟨i, hi, hip⟩ := List.mem_iff_getElem.mp hp
    rw [← hip, hget i hi]
    exact prod_mem_unit (fun y hy => hfac y (List.mem_of_mem_take hy))

/-- Witness for the amended C6, at Scenario A. -/
theorem C6_at_risk_and_proba_monotone_witness :
    scenarioA ≠ [] ∧
      (((survivingRows (bucketed (id : ℤ → ℤ) scenarioA)).map
            SurvRow.at_risk).Pairwise (fun a b => b ≤ a) ∧
        (survival_proba (bucketed (id : ℤ → ℤ) scenarioA)).Pairwise
          (fun a b => b ≤ a) ∧
        ∀ p ∈ survival_proba (bucketed (id : ℤ → ℤ) scenarioA),
          0 ≤ p ∧ p ≤ 1) :=
  ⟨by decide, C6_at_risk_and_proba_monotone id scenarioA (by decide)⟩

/-- C10: every entry of the censored column is non-negative — the at-risk
bookkeeping can never back out a negative censoring count. -/
theorem C10_censored_nonneg {α : Type} (bucket : α → ℤ)
    (records : List (α × Bool)) (hne : records ≠ []) :
    ∀ c ∈ censoredCol (bucketed bucket records), 0 ≤ c :=
  censoredList_nonneg_aux (bucketed bucket records)
    (survivingRows (bucketed bucket records))
    (fun r hr => (mem_survivingRows hr).1)
    (survivingRows_key_lt _)

/-- Witness for C10, at Scenario A. -/
theorem C10_censored_nonneg_witness :
    scenarioA ≠ [] ∧
      ∀ c ∈ censoredCol (bucketed (id : ℤ → ℤ) scenarioA), 0 ≤ c :=
  ⟨by decide, C10_censored_nonneg id scenarioA (by decide)⟩

end Gists

namespace Gists

/-!
### Event-log stage: `events_to_durations.py` and `events_to_conversions.py`

The event log is a `List Evt`, one entry per row; a row's position in the
list is its index label (the scripts build the log with a default
`RangeIndex` named `row`, so labels and positions coincide).  Column
selection through the `unit` / `timestamp` / `event` name arguments is
embedded as fixed record fields carrying the call-site column names.

Both source functions close over the module-level frame `df` defined in the
script body, not only over their declared parameters:
`events_to_durations` reads `df` on lines 54 (`df.iloc[endpoint_events]`)
and 63 (`censoring_time = df["timestamp"].max()`), and
`events_to_conversions` reads `df` in every step (lines 41, 46, 49, 50, 54,
55, 59), never touching its `data` parameter.  The embedding therefore
takes the module-level frame as an explicit first argument `df`.
-/

/-- A row of the event log: `visitorid`, `timestamp`, `event` columns. -/
structure Evt where
  visitorid : ℕ
  timestamp : ℤ
  event : String
  deriving Repr, DecidableEq

/-- A row of the duration table returned by `events_to_durations` (indexed
by unit), with the `endpoint` column before `endpoint_time` as on lines
58–59. -/
structure DurationRec where
  visitorid : ℕ
  entry_time : ℤ
  endpoint : Option String
  endpoint_time : Option ℤ
  final_obs_time : ℤ
  duration : ℤ
  deriving Repr, DecidableEq

/-- A row of the conversions table returned by `events_to_conversions`
(indexed by unit), with `conversion_time` before `conversion_event` as on
lines 54–55. -/
structure ConversionRec where
  visitorid : ℕ
  entry_time : ℤ
  conversion_time : Option ℤ
  conversion_event : Option String
  final_obs_time : ℤ
  duration : ℤ
  deriving Repr, DecidableEq

/-- The sorted distinct units of a log: `groupby(unit)` produces one group
per distinct unit, keys sorted ascending. -/
def unitsOf (log : List Evt) : List ℕ :=
  List.insertionSort (· ≤ ·) ((log.map (fun e => e.visitorid)).dedup)

/-- `grp[timestamp].min()` for one unit: the minimum timestamp among the
unit's rows (the unit always has at least one row, so the default is never
reached). -/
def entryTime (log : List Evt) (u : ℕ) : ℤ :=
  (((log.filter (fun e => decide (e.visitorid = u))).map
      (fun e => e.timestamp)).min?).getD 0

/-- `idxmin` over indexed rows: the index of the first row attaining the
minimal timestamp (pandas `idxmin` returns the first occurrence of the
minimum). -/
def idxminTime (rows : List (ℕ × Evt)) : Option ℕ :=
  (rows.foldl (fun acc p =>
    match acc with
    | none => some p
    | some q => if p.2.timestamp < q.2.timestamp then some p else some q)
    none).map (fun p => p.1)

/-- Lines 48–54 of `events_to_durations.py`: filter the log to endpoint
events, take `idxmin` of the timestamp per unit (an index into `log`), then
select those positions from the module-level frame `df` with `.iloc` and
index the result by the selected rows' own unit column.  The unit keys of
the `groupby` are sorted ascending, so the selected rows appear in
ascending order of the filtered log's units. -/
def endpointRows (df log : List Evt) (endpoints : List String) : List Evt :=
  (unitsOf (log.filter (fun e => decide (e.event ∈ endpoints)))).filterMap
    (fun u =>
      (idxminTime ((log.enum).filter (fun p =>
        decide (p.2.visitorid = u) && decide (p.2.event ∈ endpoints)))).bind
        (fun i => df[i]?))

/-- Line 63: `censoring_time = df["timestamp"].max()` — the maximum
timestamp of the module-level frame `df`, not of the input log. -/
def censoringTime (df : List Evt) : ℤ :=
  ((df.map (fun e => e.timestamp)).max?).getD 0

/-- `events_to_durations` (lines 42–70 of `events_to_durations.py`).
`df` is the module-level frame the source body closes over; `log` is the
`event_log` parameter; `endpoints` is the endpoint-type list.  Alignment of
the `endpoint` / `endpoint_time` columns with the per-unit index (lines
58–59) becomes a lookup of the unit among the selected endpoint rows. -/
def events_to_durations (df log : List Evt) (endpoints : List String) :
    List DurationRec :=
  (unitsOf log).map (fun u =>
    let ep := (endpointRows df log endpoints).find?
      (fun e => decide (e.visitorid = u))
    let entry := entryTime log u
    let fot := (ep.map (fun e => e.timestamp)).getD (censoringTime df)
    { visitorid := u
      entry_time := entry
      endpoint := ep.map (fun e => e.event)
      endpoint_time := ep.map (fun e => e.timestamp)
      final_obs_time := fot
      duration := fot - entry })

/-- `endpoint_observed` as computed at line 109 of the driver block:
`durations["endpoint"].notnull()`. -/
def endpoint_observed (r : DurationRec) : Bool :=
  r.endpoint.isSome

/-- `events_to_conversions` (lines 11–66 of `events_to_conversions.py`).
Every step of the body reads the module-level frame `df` — the grouping on
line 41, the conversion filter on line 46, the `.iloc` on line 50 and the
censoring time on line 59 — and the declared `data` parameter is never
read. -/
def events_to_conversions (df : List Evt) (data : List Evt)
    (conversion_events : List String) : List ConversionRec :=
  (unitsOf df).map (fun u =>
    let cv := (endpointRows df df conversion_events).find?
      (fun e => decide (e.visitorid = u))
    let entry := entryTime df u
    let fot := (cv.map (fun e => e.timestamp)).getD (censoringTime df)
    { visitorid := u
      entry_time := entry
      conversion_time := cv.map (fun e => e.timestamp)
      conversion_event := cv.map (fun e => e.event)
      final_obs_time := fot
      duration := fot - entry })

end Gists

namespace Gists

/-! ### Claim theorems for the event-log stage -/

/-- C7 fails on the code: the event-aggregation operations are not pure
functions of their explicit arguments.  With identical explicit arguments
(the event log and endpoint list), changing only the module-level frame
`df` — which the source bodies close over — changes the result of both
`events_to_durations` (censoring time read from `df` on line 63) and
`events_to_conversions`; and `events_to_conversions` ignores its declared
`data` parameter entirely. -/
theorem C7_reads_module_level_frame :
    (events_to_durations [⟨1, 5, "view"⟩] [⟨1, 5, "view"⟩] ["transaction"] ≠
        events_to_durations [⟨1, 9, "view"⟩] [⟨1, 5, "view"⟩] ["transaction"]) ∧
      (events_to_conversions [⟨1, 5, "view"⟩] [⟨1, 5, "view"⟩]
          ["transaction"] ≠
        events_to_conversions [⟨1, 9, "view"⟩] [⟨1, 5, "view"⟩]
          ["transaction"]) ∧
      ∀ data : List Evt,
        events_to_conversions [⟨1, 5, "view"⟩] data ["transaction"] =
          events_to_conversions [⟨1, 5, "view"⟩] [⟨1, 5, "view"⟩]
            ["transaction"] :=
  ⟨by decide, by decide, fun _ => rfl⟩

/-- C8 fails as stated: on empty input both stages return an empty table;
no error of any kind is raised (the scripts contain no input validation or
error path — the grouping, cumulative sum, filter, cumulative product and
cumulative sum all pass an empty frame through). -/
theorem C8_counterexample_empty_input_returns_empty :
    events_to_durations [] [] ["transaction"] = [] ∧
      survivingRows (bucketed (id : ℤ → ℤ) []) = [] ∧
      censoredCol (bucketed (id : ℤ → ℤ) []) = [] ∧
      survival_proba (bucketed (id : ℤ → ℤ) []) = [] ∧
      cumulative_hazard (bucketed (id : ℤ → ℤ) []) = [] :=
  ⟨rfl, rfl, rfl, rfl, rfl⟩

/-- C8 (amended): neither stage validates for empty input; on an empty
event log the aggregator returns an empty duration table (for any
module-level frame and endpoint list), and on an empty duration-record
collection the life-table builder returns empty tables and columns. -/
theorem C8_empty_input_yields_empty_tables (df : List Evt)
    (endpoints : List String) {α : Type} (bucket : α → ℤ) :
    events_to_durations df [] endpoints = [] ∧
      survivingRows (bucketed bucket []) = [] ∧
      censoredCol (bucketed bucket []) = [] ∧
      survival_proba (bucketed bucket []) = [] ∧
      cumulative_hazard (bucketed bucket []) = [] :=
  ⟨rfl, rfl, rfl, rfl, rfl⟩

/-- C9 fails as stated: for a log with exactly one unit and one event whose
type is NOT in the endpoint set, the single record is censored —
`endpoint_time` absent and `endpoint_observed = false` — contradicting the
claim's unconditional `endpoint_observed = true`. -/
theorem C9_counterexample_non_endpoint_event :
    events_to_durations [⟨0, 0, "view"⟩] [⟨0, 0, "view"⟩] ["transaction"] =
        [⟨0, 0, none, none, 0, 0⟩] ∧
      ¬ ∀ r ∈ events_to_durations [⟨0, 0, "view"⟩] [⟨0, 0, "view"⟩]
          ["transaction"], endpoint_observed r = true := by
  decide

/-- C9 (amended): for every event log containing exactly one unit with
exactly one event whose type is in the endpoint set (aggregated, as at the
script's only call site, with the module-level frame equal to the log), the
output is exactly one duration record with
`entry_time = endpoint_time = final_obs_time` equal to the event's
timestamp, `duration = 0`, and `endpoint_observed = true`. -/
theorem C9_single_event_duration_record (u : ℕ) (t : ℤ) (e : String)
    (endpoints : List String) (h : e ∈ endpoints) :
    events_to_durations [⟨u, t, e⟩] [⟨u, t, e⟩] endpoints =
        [⟨u, t, some e, some t, t, 0⟩] ∧
      ∀ r ∈ events_to_durations [⟨u, t, e⟩] [⟨u, t, e⟩] endpoints,
        endpoint_observed r = true := by
  have hd : decide (e ∈ endpoints) = true := decide_eq_true h
  have hmain : events_to_durations [⟨u, t, e⟩] [⟨u, t, e⟩] endpoints =
      [⟨u, t, some e, some t, t, 0⟩] := by
    simp [events_to_durations, unitsOf, endpointRows, idxminTime, entryTime,
      censoringTime, List.filter, List.enum, hd, List.dedup,
      List.insertionSort, List.filterMap, List.min?, List.max?]
  refine ⟨hmain, ?_⟩
  intro r hr
  rw [hmain, List.mem_singleton] at hr
  rw [hr]
  rfl

/-- Witness for the amended C9 at a concrete single-transaction log. -/
theorem C9_single_event_duration_record_witness :
    ("transaction" ∈ ["transaction"]) ∧
      (events_to_durations [⟨3, 11, "transaction"⟩] [⟨3, 11, "transaction"⟩]
          ["transaction"] =
          [⟨3, 11, some "transaction", some 11, 11, 0⟩] ∧
        ∀ r ∈ events_to_durations [⟨3, 11, "transaction"⟩]
            [⟨3, 11, "transaction"⟩] ["transaction"],
          endpoint_observed r = true) :=
  ⟨by decide,
    C9_single_event_duration_record 3 11 "transaction" ["transaction"]
      (by decide)⟩

end Gists
